import Mathlib

/-!
Verification of the curve / surface-of-revolution geometry engine of the
`computacao-grafica` repository.

The JavaScript source is embedded shallowly over exact rationals (ℚ):
JS `number` arithmetic on the relevant code paths is plain field
arithmetic, and the floating-point tolerances of the specification
(1e-6, "within floating tolerance") become exact statements here.
Transcendental library calls (`Math.cos`, `Math.sin`, `Math.sqrt`,
`Math.PI`) are abstracted as explicit function/value parameters
(`cosF`, `sinF`, `sqrtF`, `piV`), since their float values are not
exactly representable; every property proved below is independent of
those parameters except where a hypothesis states exactly what is
assumed of them (e.g. that `sqrtF` is an exact square root at the
finitely many values where the code applies it).
-/

/-- A 2D point `{x, y}` as used by the curve generator and profiles. -/
structure Point2 where
  x : ℚ
  y : ℚ
deriving DecidableEq, Repr

/-- A weighted control point `{x, y, w}` as used by `curvas/script.js`
(also reused for the intermediate homogeneous points of the rational
De Casteljau loop, which carry the same three fields). -/
structure WPoint where
  x : ℚ
  y : ℚ
  w : ℚ
deriving DecidableEq, Repr

namespace CurveGenerator

/-- One pass of adjacent linear interpolation: the loop
`for i in [0, points.length-1): newPoints.push(lerp(points[i], points[i+1]))`
inside `CurveGenerator.deCasteljau`. -/
def deCasteljauStep (t : ℚ) : List Point2 → List Point2
  | p₀ :: p₁ :: rest =>
      ⟨(1 - t) * p₀.x + t * p₁.x, (1 - t) * p₀.y + t * p₁.y⟩ ::
        deCasteljauStep t (p₁ :: rest)
  | _ => []

theorem length_deCasteljauStep (t : ℚ) (ps : List Point2) :
    (deCasteljauStep t ps).length = ps.length - 1 := by
  induction ps with
  | nil => simp [deCasteljauStep]
  | cons p rest ih =>
      cases rest with
      | nil => simp [deCasteljauStep]
      | cons q rest' =>
          simp only [deCasteljauStep, List.length_cons] at ih ⊢
          omega

/-- `CurveGenerator.deCasteljau(points, t)` from `src/unnamed/part_000`:
recursive De Casteljau evaluation.  The JS function never returns on an
empty input (it recurses forever); the `[]` case below is a junk value
for totality and no theorem relies on it. -/
def deCasteljau (points : List Point2) (t : ℚ) : Point2 :=
  match points with
  | [] => ⟨0, 0⟩
  | [p] => p
  | p₀ :: p₁ :: rest => deCasteljau (deCasteljauStep t (p₀ :: p₁ :: rest)) t
termination_by points.length
decreasing_by
  simp only [length_deCasteljauStep, List.length_cons]
  omega

/-- `CurveGenerator.generateBezier(controlPoints, resolution)`:
returns `[]` for fewer than 2 control points, otherwise samples
`deCasteljau` at `t = i / resolution` for `i = 0 .. resolution`. -/
def generateBezier (controlPoints : List Point2) (resolution : ℕ) : List Point2 :=
  if controlPoints.length < 2 then []
  else
    (List.range (resolution + 1)).map fun i =>
      deCasteljau controlPoints ((i : ℚ) / (resolution : ℚ))

/-- `CurveGenerator.bSplineBasis(i, k, t, knots)`: Cox–de Boor recursion.
Base case `k = 0` returns 1 on `knots[i] <= t < knots[i+1]`, except at
`i = knots.length - 2` (the last interval of the whole vector) where the
upper bound is inclusive.  A recursive term is dropped when its
denominator is exactly zero, as in the source. -/
def bSplineBasis (i k : ℕ) (t : ℚ) (knots : List ℚ) : ℚ :=
  match k with
  | 0 =>
      if i = knots.length - 2 then
        if knots.getD i 0 ≤ t ∧ t ≤ knots.getD (i + 1) 0 then 1 else 0
      else
        if knots.getD i 0 ≤ t ∧ t < knots.getD (i + 1) 0 then 1 else 0
  | k' + 1 =>
      let c1 :=
        if knots.getD (i + (k' + 1)) 0 ≠ knots.getD i 0 then
          ((t - knots.getD i 0) /
              (knots.getD (i + (k' + 1)) 0 - knots.getD i 0)) *
            bSplineBasis i k' t knots
        else 0
      let c2 :=
        if knots.getD (i + (k' + 1) + 1) 0 ≠ knots.getD (i + 1) 0 then
          ((knots.getD (i + (k' + 1) + 1) 0 - t) /
              (knots.getD (i + (k' + 1) + 1) 0 - knots.getD (i + 1) 0)) *
            bSplineBasis (i + 1) k' t knots
        else 0
      c1 + c2

/-- `CurveGenerator.generateKnotVector(n, degree)`: open uniform knot
vector of length `n + degree + 1` — the first `degree+1` entries are 0,
entries from index `n` on are `n - degree`, interior entries are
`i - degree`. -/
def generateKnotVector (n degree : ℕ) : List ℚ :=
  (List.range (n + degree + 1)).map fun i =>
    if i < degree + 1 then 0
    else if n ≤ i then (n : ℚ) - (degree : ℚ)
    else (i : ℚ) - (degree : ℚ)

/-- `CurveGenerator.generateBSpline(controlPoints, degree, resolution)`:
returns `[]` when `controlPoints.length < degree + 1`; otherwise samples
`t` over `[knots[degree], knots[n]]` at `resolution + 1` points,
accumulates `x`, `y` and the basis sum over all control points, and keeps
a sample only when the basis sum exceeds 1e-6 (the JS `isFinite` guard is
vacuous over ℚ). -/
def generateBSpline (controlPoints : List Point2) (degree resolution : ℕ) :
    List Point2 :=
  if controlPoints.length < degree + 1 then []
  else
    let n := controlPoints.length
    let knots := generateKnotVector n degree
    let minKnot := knots.getD degree 0
    let maxKnot := knots.getD n 0
    (List.range (resolution + 1)).filterMap fun i =>
      let t := minKnot + ((i : ℚ) / (resolution : ℚ)) * (maxKnot - minKnot)
      let sumBasis :=
        ((List.range n).map fun j => bSplineBasis j degree t knots).sum
      let x :=
        ((List.range n).map fun j =>
          bSplineBasis j degree t knots * (controlPoints.getD j ⟨0, 0⟩).x).sum
      let y :=
        ((List.range n).map fun j =>
          bSplineBasis j degree t knots * (controlPoints.getD j ⟨0, 0⟩).y).sum
      if 1 / 1000000 < sumBasis then some ⟨x, y⟩ else none

end CurveGenerator

namespace Curvas

/-- The homogeneous lift `p ↦ {x: p.x * p.w, y: p.y * p.w, w: p.w}`
performed by the `ctrl.map` at the top of `deCasteljauRational`. -/
def weighted (p : WPoint) : WPoint :=
  ⟨p.x * p.w, p.y * p.w, p.w⟩

/-- Linear interpolation of homogeneous points, the assignment inside the
inner loop of `deCasteljauRational`. -/
def lerpW (t : ℚ) (p q : WPoint) : WPoint :=
  ⟨(1 - t) * p.x + t * q.x, (1 - t) * p.y + t * q.y, (1 - t) * p.w + t * q.w⟩

/-- The inner loop `for i in [0, m): pts[i] = lerp(pts[i], pts[i+1])` of
`deCasteljauRational`: the first `m` positions are replaced by adjacent
interpolations (each reading the not-yet-updated right neighbour) and the
remaining positions are kept unchanged. -/
def ratPass (t : ℚ) : ℕ → List WPoint → List WPoint
  | 0, l => l
  | m + 1, p₀ :: p₁ :: rest => lerpW t p₀ p₁ :: ratPass t m (p₁ :: rest)
  | _ + 1, l => l

/-- The outer loop `for r in [1, n]` of `deCasteljauRational`: round `r`
runs the inner loop for `i ≤ n - r`, i.e. `n - r + 1` iterations, so the
rounds perform passes of decreasing width `n, n-1, …, 1`. -/
def ratLoop (t : ℚ) : ℕ → List WPoint → List WPoint
  | 0, l => l
  | k + 1, l => ratLoop t k (ratPass t (k + 1) l)

/-- `deCasteljauRational(ctrl, t)` from `src/curvas/script.js`: lift the
control points to homogeneous coordinates, run the triangular
interpolation loops in place, and divide the first entry by its weight.
On an empty input the JS code reads `pts[0].x` of `undefined` and throws
a `TypeError`; this is modelled by `none`. -/
def deCasteljauRational (ctrl : List WPoint) (t : ℚ) : Option Point2 :=
  match ratLoop t (ctrl.length - 1) (ctrl.map weighted) with
  | [] => none
  | q :: _ => some ⟨q.x / q.w, q.y / q.w⟩

/-- `window.__app.computeBezierAt(t)` from `src/curvas/script.js`:
evaluates `deCasteljauRational` on the module-level `points` list (here
passed explicitly). -/
def appComputeBezierAt (points : List WPoint) (t : ℚ) : Option Point2 :=
  deCasteljauRational points t

/-- Proof infrastructure (not itself from the source): a full pass of
adjacent interpolations with the shrinking-list convention.  `ratPass`
agrees with it on the live prefix (`ratPass_eq_wholePass_take`), which
lets the in-place triangular loop be related to the textbook recursion. -/
def wholePass (t : ℚ) : List WPoint → List WPoint
  | p₀ :: p₁ :: rest => lerpW t p₀ p₁ :: wholePass t (p₁ :: rest)
  | _ => []

/-- Projection of a homogeneous point to its cartesian part. -/
def projW (p : WPoint) : Point2 :=
  ⟨p.x, p.y⟩

end Curvas

/-- A 3D point / vector `{x, y, z}`. -/
structure Point3 where
  x : ℚ
  y : ℚ
  z : ℚ
deriving DecidableEq, Repr

/-- A triangular face: three indices into the vertex list, the JS array
`[a, b, c]`. -/
structure Face where
  a : ℕ
  b : ℕ
  c : ℕ
deriving DecidableEq, Repr

/-- The mesh state of a `RevolutionSurface` object: `this.vertices`,
`this.normals`, `this.faces`. -/
structure Mesh where
  vertices : List Point3
  normals : List Point3
  faces : List Face
deriving DecidableEq, Repr

/-- The revolution axis argument `"x" | "y" | "z"`. -/
inductive Axis where
  | x
  | y
  | z
deriving DecidableEq, Repr

namespace RevolutionSurface

/-- The per-point rotation case split inside `RevolutionSurface.generate`:
given `cos θ` and `sin θ` for the current ring, place one profile point. -/
def rotatePoint (cosT sinT : ℚ) (axis : Axis) (p : Point2) : Point3 :=
  match axis with
  | Axis.y => ⟨p.x * cosT, p.y, p.x * sinT⟩
  | Axis.x => ⟨p.x, p.y * cosT, p.y * sinT⟩
  | Axis.z => ⟨p.x * cosT, p.x * sinT, p.y⟩

/-- The vertex-generation double loop of `RevolutionSurface.generate`:
ring index `i = 0 .. subdivisions` (inclusive), profile index `j` over
the whole profile, `θ = i * angleStep`. -/
def generateVertices (cosF sinF : ℚ → ℚ) (profile : List Point2) (axis : Axis)
    (angleStep : ℚ) (subdivisions : ℕ) : List Point3 :=
  (List.range (subdivisions + 1)).flatMap fun i =>
    profile.map fun p =>
      rotatePoint (cosF ((i : ℚ) * angleStep)) (sinF ((i : ℚ) * angleStep)) axis p

/-- The face-generation double loop of `RevolutionSurface.generate`:
for ring `i < subdivisions` and profile index `j < pointsPerRing - 1`,
with `a = i * pointsPerRing + j`, `b = a + pointsPerRing`, `c = a + 1`,
`d = b + 1`, emit triangles `[a, b, c]` and `[b, d, c]`. -/
def generateFaces (pointsPerRing subdivisions : ℕ) : List Face :=
  (List.range subdivisions).flatMap fun i =>
    (List.range (pointsPerRing - 1)).flatMap fun j =>
      let a := i * pointsPerRing + j
      let b := a + pointsPerRing
      let c := a + 1
      let d := b + 1
      [⟨a, b, c⟩, ⟨b, d, c⟩]

/-- Componentwise vector addition (the `+=` accumulation in
`calculateNormals`). -/
def addV (p q : Point3) : Point3 :=
  ⟨p.x + q.x, p.y + q.y, p.z + q.z⟩

/-- The unnormalized face normal of `calculateNormals`: the cross product
`(v1 - v0) × (v2 - v0)` of the edge vectors of face `f`, vertices read
from `vertices` by index. -/
def faceNormal (vertices : List Point3) (f : Face) : Point3 :=
  let v0 := vertices.getD f.a ⟨0, 0, 0⟩
  let v1 := vertices.getD f.b ⟨0, 0, 0⟩
  let v2 := vertices.getD f.c ⟨0, 0, 0⟩
  let u : Point3 := ⟨v1.x - v0.x, v1.y - v0.y, v1.z - v0.z⟩
  let v : Point3 := ⟨v2.x - v0.x, v2.y - v0.y, v2.z - v0.z⟩
  ⟨u.y * v.z - u.z * v.y, u.z * v.x - u.x * v.z, u.x * v.y - u.y * v.x⟩

/-- Add vector `nrm` into position `i` of the accumulator list (one
iteration of `for (const idx of face) normals[idx] += normal`). -/
def addAt (ns : List Point3) (i : ℕ) (nrm : Point3) : List Point3 :=
  ns.set i (addV (ns.getD i ⟨0, 0, 0⟩) nrm)

/-- The body of the per-face loop of `calculateNormals`: compute the
face normal once and add it into the accumulators of the three corners
(`for (const idx of face) { normals[idx] += normal }`). -/
def accumStep (vertices : List Point3) (ns : List Point3) (f : Face) :
    List Point3 :=
  let nrm := faceNormal vertices f
  addAt (addAt (addAt ns f.a nrm) f.b nrm) f.c nrm

/-- The accumulation phase of `calculateNormals`: start from one zero
vector per vertex and, for every face, add its unnormalized face normal
into the accumulators of its three corners. -/
def accumNormals (vertices : List Point3) (faces : List Face) : List Point3 :=
  faces.foldl (accumStep vertices) (List.replicate vertices.length ⟨0, 0, 0⟩)

/-- The squared length `n.x*n.x + n.y*n.y + n.z*n.z` computed inside the
normalization loop (and used below to state magnitude properties without
leaving ℚ). -/
def normSq (n : Point3) : ℚ :=
  n.x * n.x + n.y * n.y + n.z * n.z

/-- The normalization step of `calculateNormals`: divide by
`sqrtF (x*x + y*y + z*z)` when that length is positive, keep the vector
unchanged otherwise.  `sqrtF` abstracts `Math.sqrt`. -/
def normalizeV (sqrtF : ℚ → ℚ) (n : Point3) : Point3 :=
  let length := sqrtF (normSq n)
  if 0 < length then ⟨n.x / length, n.y / length, n.z / length⟩ else n

/-- `RevolutionSurface.calculateNormals()`: accumulate unnormalized face
normals per vertex, then normalize each accumulator. -/
def calculateNormals (sqrtF : ℚ → ℚ) (vertices : List Point3)
    (faces : List Face) : List Point3 :=
  (accumNormals vertices faces).map (normalizeV sqrtF)

/-- `RevolutionSurface.generate(profile, axis, angle, subdivisions)` as a
transformer of the mesh state `m`:  with fewer than 2 profile points it
returns immediately (mesh unchanged); otherwise it rebuilds vertices,
faces and normals wholesale.  `piV` abstracts `Math.PI`, `cosF`/`sinF`
abstract `Math.cos`/`Math.sin`, `sqrtF` abstracts the `Math.sqrt` used by
the `calculateNormals` call at the end. -/
def generate (piV : ℚ) (cosF sinF sqrtF : ℚ → ℚ) (m : Mesh)
    (profile : List Point2) (axis : Axis) (angle : ℚ) (subdivisions : ℕ) :
    Mesh :=
  if profile.length < 2 then m
  else
    let angleRad := angle * piV / 180
    let angleStep := angleRad / (subdivisions : ℚ)
    let vertices := generateVertices cosF sinF profile axis angleStep subdivisions
    let faces := generateFaces profile.length subdivisions
    let normals := calculateNormals sqrtF vertices faces
    ⟨vertices, normals, faces⟩

/-- The `v`-line of `exportOBJ` for one vertex; `fmt` abstracts
`Number.prototype.toFixed(6)`. -/
def objVertexLine (fmt : ℚ → String) (v : Point3) : String :=
  "v " ++ fmt v.x ++ " " ++ fmt v.y ++ " " ++ fmt v.z

/-- The `vn`-line of `exportOBJ` for one normal. -/
def objNormalLine (fmt : ℚ → String) (n : Point3) : String :=
  "vn " ++ fmt n.x ++ " " ++ fmt n.y ++ " " ++ fmt n.z

/-- The `f`-line of `exportOBJ` for one face: 1-based indices, the vertex
index and the normal index of each corner written identically on both
sides of `//`. -/
def objFaceLine (f : Face) : String :=
  "f " ++ toString (f.a + 1) ++ "//" ++ toString (f.a + 1) ++ " " ++
    toString (f.b + 1) ++ "//" ++ toString (f.b + 1) ++ " " ++
    toString (f.c + 1) ++ "//" ++ toString (f.c + 1)

/-- `RevolutionSurface.exportOBJ()`, written as the list of lines of the
produced text (the JS builds one string where every `+=` appends exactly
the lines shown here, `\n\n` producing an empty line). -/
def exportOBJ (fmt : ℚ → String) (m : Mesh) : List String :=
  ["# Surface of Revolution",
    "# Vertices: " ++ toString m.vertices.length,
    "# Faces: " ++ toString m.faces.length,
    ""] ++
  m.vertices.map (objVertexLine fmt) ++ [""] ++
  m.normals.map (objNormalLine fmt) ++ [""] ++
  m.faces.map objFaceLine

end RevolutionSurface

/-- `l.startsWith p` on the character level: the line `l` begins with the
text `p`. -/
def lineStarts (p l : String) : Bool :=
  p.data.isPrefixOf l.data

namespace RevolutionSurface

theorem length_generateVertices (cosF sinF : ℚ → ℚ) (profile : List Point2)
    (axis : Axis) (angleStep : ℚ) (s : ℕ) :
    (generateVertices cosF sinF profile axis angleStep s).length =
      (s + 1) * profile.length := by
  simp [generateVertices, List.length_flatMap, Function.comp_def, List.map_const']

theorem length_generateFaces (P s : ℕ) :
    (generateFaces P s).length = s * ((P - 1) * 2) := by
  simp [generateFaces, List.length_flatMap, Function.comp_def, List.map_const']

theorem mem_generateFaces {P s : ℕ} {f : Face} (h : f ∈ generateFaces P s) :
    ∃ i < s, ∃ j < P - 1,
      f = ⟨i * P + j, i * P + j + P, i * P + j + 1⟩ ∨
        f = ⟨i * P + j + P, i * P + j + P + 1, i * P + j + 1⟩ := by
  simp only [generateFaces, List.mem_flatMap, List.mem_range,
    List.mem_cons, List.not_mem_nil, or_false] at h
  obtain ⟨i, hi, j, hj, hf⟩ := h
  exact ⟨i, hi, j, hj, hf⟩

theorem length_accumStep (vertices ns : List Point3) (f : Face) :
    (accumStep vertices ns f).length = ns.length := by
  simp [accumStep, addAt]

theorem length_foldl_accumStep (vertices : List Point3) :
    ∀ (fs : List Face) (ns : List Point3),
      (fs.foldl (accumStep vertices) ns).length = ns.length := by
  intro fs
  induction fs with
  | nil => intro ns; rfl
  | cons f fs ih =>
      intro ns
      simp only [List.foldl_cons, ih, length_accumStep]

theorem length_accumNormals (vertices : List Point3) (faces : List Face) :
    (accumNormals vertices faces).length = vertices.length := by
  simp [accumNormals, length_foldl_accumStep]

theorem length_calculateNormals (sqrtF : ℚ → ℚ) (vertices : List Point3)
    (faces : List Face) :
    (calculateNormals sqrtF vertices faces).length = vertices.length := by
  simp [calculateNormals, length_accumNormals]

theorem quad_index_bound {i j P s : ℕ} (hi : i < s) (hj : j < P - 1)
    (hP : 2 ≤ P) : i * P + j + P + 1 < (s + 1) * P := by
  have h2 : (i + 1) * P ≤ s * P := Nat.mul_le_mul_right P hi
  have h3 : j + 2 ≤ P := by omega
  calc i * P + j + P + 1 < i * P + P + P := by omega
    _ = (i + 1) * P + P := by ring
    _ ≤ s * P + P := by omega
    _ = (s + 1) * P := by ring

end RevolutionSurface

/-- Claim C1 (evidence of the code bug): for degree `d = 1` over `n = 2`
control points the open uniform knot vector is `[0, 0, 1, 1]` and the
basis sum over `i ∈ [0, n)` is 1 at the interior parameter `t = 1/2`, but
at `t = knots[n] = 1` — the curve's end parameter `maxKnot` — it is `0`,
not 1: the inclusive-upper-bound special case of `bSplineBasis` sits at
index `knots.length - 2`, a zero-length interval of the clamped vector
whose contribution is discarded by the zero-denominator convention of the
recursive case, so it never reaches the sum.  Consequently
`generateBSpline` drops its final sample (`sumBasis > 1e-6` fails) and a
resolution-4 sampling yields only 4 curve points, contradicting the
claimed (and intended, per the code's own comment) inclusion of the
endpoint. -/
theorem claim_C1_endpoint_basis_sum :
    CurveGenerator.generateKnotVector 2 1 = [0, 0, 1, 1] ∧
    ((List.range 2).map fun j =>
        CurveGenerator.bSplineBasis j 1 (1 / 2)
          (CurveGenerator.generateKnotVector 2 1)).sum = 1 ∧
    ((List.range 2).map fun j =>
        CurveGenerator.bSplineBasis j 1
          ((CurveGenerator.generateKnotVector 2 1).getD 2 0)
          (CurveGenerator.generateKnotVector 2 1)).sum = 0 ∧
    (CurveGenerator.generateBSpline [⟨0, 0⟩, ⟨2, 2⟩] 1 4).length = 4 := by
  refine ⟨?_, ?_, ?_, ?_⟩ <;>
    norm_num [CurveGenerator.generateKnotVector, CurveGenerator.generateBSpline,
      List.range_succ, CurveGenerator.bSplineBasis, List.filterMap_cons]

/-- Claim C2: for a profile with at least 2 points and `angle = 360`,
`RevolutionSurface.generate` produces exactly `(N + 1) * P` vertices and
`2 * N * (P - 1)` triangular faces (`P` the profile length, `N` the
subdivision count). -/
theorem claim_C2_mesh_counts (piV : ℚ) (cosF sinF sqrtF : ℚ → ℚ) (m : Mesh)
    (profile : List Point2) (axis : Axis) (N : ℕ)
    (hP : 2 ≤ profile.length) (_hN : 1 ≤ N) :
    (RevolutionSurface.generate piV cosF sinF sqrtF m profile axis 360
        N).vertices.length = (N + 1) * profile.length ∧
    (RevolutionSurface.generate piV cosF sinF sqrtF m profile axis 360
        N).faces.length = 2 * N * (profile.length - 1) := by
  have hnot : ¬ profile.length < 2 := by omega
  refine ⟨?_, ?_⟩ <;>
    simp only [RevolutionSurface.generate, hnot, if_false,
      RevolutionSurface.length_generateVertices,
      RevolutionSurface.length_generateFaces] <;>
    ring

/-- Witness for claim C2 at the spec's concrete scenario: the profile
`[(1,0), (1,1)]` revolved with 4 subdivisions has `(4+1)*2 = 10` vertices
and `2*4*(2-1) = 8` faces. -/
theorem claim_C2_mesh_counts_witness :
    2 ≤ ([⟨1, 0⟩, ⟨1, 1⟩] : List Point2).length ∧ 1 ≤ 4 ∧
    ((RevolutionSurface.generate (355 / 113) (fun _ => 1) (fun _ => 0)
          (fun _ => 0) ⟨[], [], []⟩ [⟨1, 0⟩, ⟨1, 1⟩] Axis.y 360
          4).vertices.length =
        (4 + 1) * ([⟨1, 0⟩, ⟨1, 1⟩] : List Point2).length ∧
      (RevolutionSurface.generate (355 / 113) (fun _ => 1) (fun _ => 0)
          (fun _ => 0) ⟨[], [], []⟩ [⟨1, 0⟩, ⟨1, 1⟩] Axis.y 360
          4).faces.length =
        2 * 4 * (([⟨1, 0⟩, ⟨1, 1⟩] : List Point2).length - 1)) :=
  ⟨by decide, by decide,
    claim_C2_mesh_counts (355 / 113) (fun _ => 1) (fun _ => 0) (fun _ => 0)
      ⟨[], [], []⟩ [⟨1, 0⟩, ⟨1, 1⟩] Axis.y 4 (by decide) (by decide)⟩

/-- Claim C5: after a mesh-building call of `RevolutionSurface.generate`
(profile length at least 2), the mesh satisfies
`normals.length = vertices.length` and every index of every face triple
is strictly below `vertices.length`. -/
theorem claim_C5_mesh_invariants (piV : ℚ) (cosF sinF sqrtF : ℚ → ℚ)
    (m : Mesh) (profile : List Point2) (axis : Axis) (angle : ℚ) (N : ℕ)
    (hP : 2 ≤ profile.length) :
    (RevolutionSurface.generate piV cosF sinF sqrtF m profile axis angle
        N).normals.length =
      (RevolutionSurface.generate piV cosF sinF sqrtF m profile axis angle
        N).vertices.length ∧
    ∀ f ∈ (RevolutionSurface.generate piV cosF sinF sqrtF m profile axis
        angle N).faces,
      f.a < (RevolutionSurface.generate piV cosF sinF sqrtF m profile axis
          angle N).vertices.length ∧
      f.b < (RevolutionSurface.generate piV cosF sinF sqrtF m profile axis
          angle N).vertices.length ∧
      f.c < (RevolutionSurface.generate piV cosF sinF sqrtF m profile axis
          angle N).vertices.length := by
  have hnot : ¬ profile.length < 2 := by omega
  simp only [RevolutionSurface.generate, hnot, if_false]
  refine ⟨RevolutionSurface.length_calculateNormals _ _ _, ?_⟩
  intro f hf
  obtain ⟨i, hi, j, hj, hor⟩ := RevolutionSurface.mem_generateFaces hf
  have hb := RevolutionSurface.quad_index_bound hi hj hP
  rw [RevolutionSurface.length_generateVertices]
  rcases hor with h | h <;> subst h <;>
    refine ⟨?_, ?_, ?_⟩ <;> dsimp only <;> omega

/-- Witness for claim C5 at a concrete revolved mesh. -/
theorem claim_C5_mesh_invariants_witness :
    2 ≤ ([⟨1, 0⟩, ⟨1, 1⟩] : List Point2).length ∧
    ((RevolutionSurface.generate (355 / 113) (fun _ => 1) (fun _ => 0)
          (fun _ => 0) ⟨[], [], []⟩ [⟨1, 0⟩, ⟨1, 1⟩] Axis.y 360
          4).normals.length =
        (RevolutionSurface.generate (355 / 113) (fun _ => 1) (fun _ => 0)
          (fun _ => 0) ⟨[], [], []⟩ [⟨1, 0⟩, ⟨1, 1⟩] Axis.y 360
          4).vertices.length ∧
      ∀ f ∈ (RevolutionSurface.generate (355 / 113) (fun _ => 1)
          (fun _ => 0) (fun _ => 0) ⟨[], [], []⟩ [⟨1, 0⟩, ⟨1, 1⟩] Axis.y 360
          4).faces,
        f.a < (RevolutionSurface.generate (355 / 113) (fun _ => 1)
            (fun _ => 0) (fun _ => 0) ⟨[], [], []⟩ [⟨1, 0⟩, ⟨1, 1⟩] Axis.y
            360 4).vertices.length ∧
        f.b < (RevolutionSurface.generate (355 / 113) (fun _ => 1)
            (fun _ => 0) (fun _ => 0) ⟨[], [], []⟩ [⟨1, 0⟩, ⟨1, 1⟩] Axis.y
            360 4).vertices.length ∧
        f.c < (RevolutionSurface.generate (355 / 113) (fun _ => 1)
            (fun _ => 0) (fun _ => 0) ⟨[], [], []⟩ [⟨1, 0⟩, ⟨1, 1⟩] Axis.y
            360 4).vertices.length) :=
  ⟨by decide,
    claim_C5_mesh_invariants (355 / 113) (fun _ => 1) (fun _ => 0)
      (fun _ => 0) ⟨[], [], []⟩ [⟨1, 0⟩, ⟨1, 1⟩] Axis.y 360 4 (by decide)⟩

/-- Claim C7: calling `RevolutionSurface.generate` with fewer than 2
profile points performs no work — the mesh state (vertices, normals,
faces) is returned unchanged, so a previously empty mesh stays empty and
a previously populated one keeps its contents. -/
theorem claim_C7_small_profile_noop (piV : ℚ) (cosF sinF sqrtF : ℚ → ℚ)
    (m : Mesh) (profile : List Point2) (axis : Axis) (angle : ℚ) (N : ℕ)
    (h : profile.length < 2) :
    RevolutionSurface.generate piV cosF sinF sqrtF m profile axis angle N
      = m := by
  simp [RevolutionSurface.generate, h]

/-- Witness for claim C7: a one-point profile leaves a populated mesh
untouched. -/
theorem claim_C7_small_profile_noop_witness :
    ([⟨5, 5⟩] : List Point2).length < 2 ∧
    RevolutionSurface.generate (355 / 113) (fun _ => 1) (fun _ => 0)
        (fun _ => 0) ⟨[⟨1, 2, 3⟩], [⟨0, 0, 1⟩], [⟨0, 0, 0⟩]⟩ [⟨5, 5⟩]
        Axis.y 360 4 =
      ⟨[⟨1, 2, 3⟩], [⟨0, 0, 1⟩], [⟨0, 0, 0⟩]⟩ :=
  ⟨by decide,
    claim_C7_small_profile_noop (355 / 113) (fun _ => 1) (fun _ => 0)
      (fun _ => 0) ⟨[⟨1, 2, 3⟩], [⟨0, 0, 1⟩], [⟨0, 0, 0⟩]⟩ [⟨5, 5⟩] Axis.y
      360 4 (by decide)⟩

/-- Claim C8: `generateBezier` with fewer than 2 control points and
`generateBSpline` with fewer than `degree + 1` control points both return
the empty curve (the guard returns before any evaluation, so no exception
can be raised — the embedding is a total function). -/
theorem claim_C8_insufficient_points (cpB cpS : List Point2)
    (degree resB resS : ℕ) :
    (cpB.length < 2 → CurveGenerator.generateBezier cpB resB = []) ∧
    (cpS.length < degree + 1 →
      CurveGenerator.generateBSpline cpS degree resS = []) := by
  constructor <;> intro h <;>
    simp [CurveGenerator.generateBezier, CurveGenerator.generateBSpline, h]

/-- Witness for claim C8: one Bézier point and two B-Spline points with
degree 3 each give the empty curve. -/
theorem claim_C8_insufficient_points_witness :
    CurveGenerator.generateBezier [⟨0, 0⟩] 50 = [] ∧
    CurveGenerator.generateBSpline [⟨0, 0⟩, ⟨1, 1⟩] 3 50 = [] :=
  ⟨(claim_C8_insufficient_points [⟨0, 0⟩] [⟨0, 0⟩, ⟨1, 1⟩] 3 50 50).1
      (by decide),
    (claim_C8_insufficient_points [⟨0, 0⟩] [⟨0, 0⟩, ⟨1, 1⟩] 3 50 50).2
      (by decide)⟩

/-- Claim C10: on the empty control-point list — reachable through the
exposed `__app.computeBezierAt` when no points exist — the rational
De Casteljau evaluator does not produce a point: the JS reads `pts[0].x`
of `undefined` and throws, modelled here by `none`, for every parameter
`t`. -/
theorem claim_C10_empty_input_throws (t : ℚ) :
    Curvas.appComputeBezierAt [] t = none ∧
    Curvas.deCasteljauRational [] t = none :=
  ⟨rfl, rfl⟩

namespace Curvas

theorem lerpW_zero (p q : WPoint) : lerpW 0 p q = p := by
  cases p; simp [lerpW]

theorem lerpW_one (p q : WPoint) : lerpW 1 p q = q := by
  cases q; simp [lerpW]

theorem length_ratPass (t : ℚ) : ∀ (m : ℕ) (l : List WPoint),
    (ratPass t m l).length = l.length := by
  intro m
  induction m with
  | zero => intro l; rfl
  | succ m ih =>
      intro l
      match l with
      | [] => rfl
      | [p] => rfl
      | p₀ :: p₁ :: rest => simpa [ratPass] using ih (p₁ :: rest)

theorem length_ratLoop (t : ℚ) : ∀ (k : ℕ) (l : List WPoint),
    (ratLoop t k l).length = l.length := by
  intro k
  induction k with
  | zero => intro l; rfl
  | succ k ih =>
      intro l
      simp [ratLoop, ih, length_ratPass]

theorem length_wholePass (t : ℚ) : ∀ l : List WPoint,
    (wholePass t l).length = l.length - 1 := by
  intro l
  induction l with
  | nil => rfl
  | cons p rest ih =>
      cases rest with
      | nil => rfl
      | cons q rest' =>
          simp only [wholePass, List.length_cons] at ih ⊢
          omega

theorem ratPass_eq_wholePass_take (t : ℚ) :
    ∀ (m : ℕ) (l : List WPoint), m < l.length →
      ratPass t m l = wholePass t (l.take (m + 1)) ++ l.drop m := by
  intro m
  induction m with
  | zero => intro l _; cases l <;> simp [ratPass, wholePass]
  | succ m ih =>
      intro l hm
      cases l with
      | nil => simp at hm
      | cons p₀ rest =>
          cases rest with
          | nil => simp at hm
          | cons p₁ rest' =>
              have h' : m < (p₁ :: rest').length := by
                simp only [List.length_cons] at hm ⊢; omega
              simp only [ratPass, List.take_succ_cons, wholePass,
                List.drop_succ_cons, ih (p₁ :: rest') h', List.cons_append]

theorem ratLoop_headD_eq_iterate (t : ℚ) (d : WPoint) :
    ∀ (n : ℕ) (l junk : List WPoint), l.length = n + 1 →
      (ratLoop t n (l ++ junk)).headD d = ((wholePass t)^[n] l).headD d := by
  intro n
  induction n with
  | zero =>
      intro l junk hl
      match l, hl with
      | [a], _ => simp [ratLoop]
  | succ n ih =>
      intro l junk hl
      have hm : n + 1 < (l ++ junk).length := by
        simp only [List.length_append]; omega
      have hpass :
          ratPass t (n + 1) (l ++ junk) =
            wholePass t l ++ (l.drop (n + 1) ++ junk) := by
        rw [ratPass_eq_wholePass_take t (n + 1) (l ++ junk) hm,
          show n + 1 + 1 = l.length from by omega, List.take_left,
          List.drop_append_of_le_length (by omega)]
      have hlen : (wholePass t l).length = n + 1 := by
        rw [length_wholePass, hl]; omega
      have h1 : ratLoop t (n + 1) (l ++ junk)
          = ratLoop t n (ratPass t (n + 1) (l ++ junk)) := rfl
      rw [h1, hpass, ih (wholePass t l) _ hlen, ← Function.iterate_succ_apply]

end Curvas

theorem list_getLastD_irrel {α : Type} : ∀ (l : List α), l ≠ [] →
    ∀ d₁ d₂ : α, l.getLastD d₁ = l.getLastD d₂ := by
  intro l
  induction l with
  | nil => intro h; exact absurd rfl h
  | cons a l ih =>
      intro _ d₁ d₂
      cases l with
      | nil => rfl
      | cons b m => simp only [List.getLastD_cons]

theorem list_getLastD_mem {α : Type} : ∀ (l : List α), l ≠ [] →
    ∀ d : α, l.getLastD d ∈ l := by
  intro l
  induction l with
  | nil => intro h; exact absurd rfl h
  | cons a l ih =>
      intro _ d
      cases l with
      | nil => simp [List.getLastD]
      | cons b m =>
          rw [List.getLastD_cons]
          exact List.mem_cons_of_mem a (ih (by simp) a)

theorem list_getLastD_map {α β : Type} (f : α → β) : ∀ (l : List α) (d : α),
    (l.map f).getLastD (f d) = f (l.getLastD d) := by
  intro l
  induction l with
  | nil => intro d; rfl
  | cons a l ih =>
      intro d
      cases l with
      | nil => rfl
      | cons b m => simpa only [List.map_cons, List.getLastD_cons] using ih a

namespace Curvas

theorem headD_drop_pred (d : WPoint) : ∀ l : List WPoint,
    (l.drop (l.length - 1)).headD d = l.getLastD d := by
  intro l
  induction l with
  | nil => rfl
  | cons a l ih =>
      cases l with
      | nil => rfl
      | cons b m =>
          have h1 : (a :: b :: m).length - 1 = (b :: m).length := by
            simp
          rw [h1]
          have h2 : (a :: b :: m).drop ((b :: m).length)
              = (b :: m).drop ((b :: m).length - 1) := by
            simp [List.drop_succ_cons]
          rw [h2, ih]
          conv_rhs => rw [List.getLastD_cons]
          exact list_getLastD_irrel (b :: m) (by simp) d a

theorem wholePass_one : ∀ l : List WPoint, wholePass 1 l = l.tail := by
  intro l
  induction l with
  | nil => rfl
  | cons a l ih =>
      cases l with
      | nil => rfl
      | cons b m =>
          simp only [wholePass, lerpW_one, List.tail_cons] at ih ⊢
          rw [ih]

theorem iterate_wholePass_one : ∀ (k : ℕ) (l : List WPoint),
    (wholePass (1 : ℚ))^[k] l = l.drop k := by
  intro k
  induction k with
  | zero => intro l; rfl
  | succ k ih =>
      intro l
      rw [Function.iterate_succ_apply, wholePass_one, ih, List.drop_tail]

theorem ratPass_zero_headD (d : WPoint) (m : ℕ) (l : List WPoint) :
    (ratPass 0 m l).headD d = l.headD d := by
  cases m with
  | zero => rfl
  | succ m =>
      cases l with
      | nil => rfl
      | cons p₀ rest =>
          cases rest with
          | nil => rfl
          | cons p₁ rest' => simp [ratPass, lerpW_zero]

theorem ratLoop_zero_headD (d : WPoint) : ∀ (k : ℕ) (l : List WPoint),
    (ratLoop 0 k l).headD d = l.headD d := by
  intro k
  induction k with
  | zero => intro l; rfl
  | succ k ih =>
      intro l
      have h1 : ratLoop 0 (k + 1) l = ratLoop 0 k (ratPass 0 (k + 1) l) := rfl
      rw [h1, ih, ratPass_zero_headD]

theorem deCasteljauRational_eq_headD (ctrl : List WPoint) (t : ℚ)
    (h : ctrl ≠ []) :
    deCasteljauRational ctrl t =
      some ⟨((ratLoop t (ctrl.length - 1) (ctrl.map weighted)).headD
              ⟨0, 0, 0⟩).x /
            ((ratLoop t (ctrl.length - 1) (ctrl.map weighted)).headD
              ⟨0, 0, 0⟩).w,
            ((ratLoop t (ctrl.length - 1) (ctrl.map weighted)).headD
              ⟨0, 0, 0⟩).y /
            ((ratLoop t (ctrl.length - 1) (ctrl.map weighted)).headD
              ⟨0, 0, 0⟩).w⟩ := by
  have hlen : (ratLoop t (ctrl.length - 1) (ctrl.map weighted)).length
      = ctrl.length := by
    rw [length_ratLoop, List.length_map]
  have hne : ratLoop t (ctrl.length - 1) (ctrl.map weighted) ≠ [] := by
    intro hcon
    rw [hcon] at hlen
    exact h (List.length_eq_zero.mp hlen.symm)
  unfold deCasteljauRational
  cases hq : ratLoop t (ctrl.length - 1) (ctrl.map weighted) with
  | nil => exact absurd hq hne
  | cons q rest => simp

end Curvas

namespace CurveGenerator

theorem deCasteljau_cons₂ (t : ℚ) (p₀ p₁ : Point2) (rest : List Point2) :
    deCasteljau (p₀ :: p₁ :: rest) t
      = deCasteljau (deCasteljauStep t (p₀ :: p₁ :: rest)) t := by
  rw [deCasteljau]

theorem deCasteljau_zero : ∀ (n : ℕ) (ps : List Point2),
    ps.length = n + 1 → deCasteljau ps 0 = ps.headD ⟨0, 0⟩ := by
  intro n
  induction n with
  | zero =>
      intro ps hl
      match ps, hl with
      | [a], _ => simp [deCasteljau]
  | succ n ih =>
      intro ps hl
      match ps, hl with
      | p₀ :: p₁ :: rest, hl' =>
          rw [deCasteljau_cons₂]
          have hstep : (deCasteljauStep 0 (p₀ :: p₁ :: rest)).length = n + 1 := by
            rw [length_deCasteljauStep]
            simp only [List.length_cons] at hl' ⊢
            omega
          rw [ih _ hstep]
          simp [deCasteljauStep]

theorem deCasteljauStep_one : ∀ ps : List Point2,
    deCasteljauStep 1 ps = ps.tail := by
  intro ps
  induction ps with
  | nil => rfl
  | cons a l ih =>
      cases l with
      | nil => rfl
      | cons b m =>
          simp only [deCasteljauStep, List.tail_cons] at ih ⊢
          rw [ih]
          norm_num

theorem deCasteljau_one : ∀ (n : ℕ) (ps : List Point2),
    ps.length = n + 1 → deCasteljau ps 1 = ps.getLastD ⟨0, 0⟩ := by
  intro n
  induction n with
  | zero =>
      intro ps hl
      match ps, hl with
      | [a], _ => simp [deCasteljau]
  | succ n ih =>
      intro ps hl
      match ps, hl with
      | p₀ :: p₁ :: rest, hl' =>
          rw [deCasteljau_cons₂, deCasteljauStep_one]
          have hlen : (p₁ :: rest).length = n + 1 := by
            simp only [List.length_cons] at hl' ⊢
            omega
          rw [List.tail_cons, ih _ hlen]
          conv_rhs => rw [List.getLastD_cons]
          exact list_getLastD_irrel (p₁ :: rest) (by simp) _ _

end CurveGenerator

theorem list_headD_mem {α : Type} (l : List α) (h : l ≠ []) (d : α) :
    l.headD d ∈ l := by
  cases l with
  | nil => exact absurd rfl h
  | cons a m => simp

namespace Curvas

theorem deCasteljauRational_zero (ctrl : List WPoint)
    (h2 : 1 ≤ ctrl.length) (hw0 : 0 < (ctrl.headD ⟨0, 0, 1⟩).w) :
    deCasteljauRational ctrl 0 =
      some ⟨(ctrl.headD ⟨0, 0, 1⟩).x, (ctrl.headD ⟨0, 0, 1⟩).y⟩ := by
  cases ctrl with
  | nil => simp at h2
  | cons c₀ cs =>
      rw [deCasteljauRational_eq_headD _ _ (by simp)]
      rw [ratLoop_zero_headD]
      simp only [List.map_cons, List.headD_cons, weighted] at hw0 ⊢
      rw [mul_div_cancel_right₀ _ (ne_of_gt hw0),
        mul_div_cancel_right₀ _ (ne_of_gt hw0)]

theorem deCasteljauRational_one (ctrl : List WPoint)
    (h2 : 1 ≤ ctrl.length) (hwl : 0 < (ctrl.getLastD ⟨0, 0, 1⟩).w) :
    deCasteljauRational ctrl 1 =
      some ⟨(ctrl.getLastD ⟨0, 0, 1⟩).x, (ctrl.getLastD ⟨0, 0, 1⟩).y⟩ := by
  have hne : ctrl ≠ [] := by
    cases ctrl with
    | nil => simp at h2
    | cons a l => simp
  rw [deCasteljauRational_eq_headD _ _ hne]
  have hLlen : (ctrl.map weighted).length = (ctrl.length - 1) + 1 := by
    rw [List.length_map]; omega
  have hiter := ratLoop_headD_eq_iterate 1 ⟨0, 0, 0⟩ (ctrl.length - 1)
    (ctrl.map weighted) [] hLlen
  rw [List.append_nil] at hiter
  rw [hiter, iterate_wholePass_one]
  have hd : ctrl.length - 1 = (ctrl.map weighted).length - 1 := by
    rw [List.length_map]
  rw [hd, headD_drop_pred]
  have hmapne : ctrl.map weighted ≠ [] := by
    simpa using hne
  rw [list_getLastD_irrel (ctrl.map weighted) hmapne ⟨0, 0, 0⟩
    (weighted ⟨0, 0, 1⟩)]
  rw [list_getLastD_map weighted ctrl ⟨0, 0, 1⟩]
  simp only [weighted] at hwl ⊢
  rw [mul_div_cancel_right₀ _ (ne_of_gt hwl),
    mul_div_cancel_right₀ _ (ne_of_gt hwl)]

end Curvas

/-- Claim C3: for control-point lists with at least 2 points, De Casteljau
evaluation at `t = 0` returns the first control point and at `t = 1` the
last one, both for the plain evaluator (`CurveGenerator.deCasteljau`) and
for the rational evaluator (`deCasteljauRational` of `curvas/script.js`);
for the rational evaluator the control weights are positive, as enforced
by the data model (`w` clamped `> 0` at the UI boundary). -/
theorem claim_C3_endpoint_interpolation (ps : List Point2)
    (ctrl : List WPoint) (hps : 2 ≤ ps.length) (hc : 2 ≤ ctrl.length)
    (hw : ∀ p ∈ ctrl, 0 < p.w) :
    CurveGenerator.deCasteljau ps 0 = ps.headD ⟨0, 0⟩ ∧
    CurveGenerator.deCasteljau ps 1 = ps.getLastD ⟨0, 0⟩ ∧
    Curvas.deCasteljauRational ctrl 0 =
      some ⟨(ctrl.headD ⟨0, 0, 1⟩).x, (ctrl.headD ⟨0, 0, 1⟩).y⟩ ∧
    Curvas.deCasteljauRational ctrl 1 =
      some ⟨(ctrl.getLastD ⟨0, 0, 1⟩).x, (ctrl.getLastD ⟨0, 0, 1⟩).y⟩ := by
  have hn : ps.length = (ps.length - 1) + 1 := by omega
  have hcne : ctrl ≠ [] := by
    cases ctrl with
    | nil => simp at hc
    | cons a l => simp
  refine ⟨CurveGenerator.deCasteljau_zero _ ps hn,
    CurveGenerator.deCasteljau_one _ ps hn,
    Curvas.deCasteljauRational_zero ctrl (by omega)
      (hw _ (list_headD_mem ctrl hcne ⟨0, 0, 1⟩)),
    Curvas.deCasteljauRational_one ctrl (by omega)
      (hw _ (list_getLastD_mem ctrl hcne ⟨0, 0, 1⟩))⟩

/-- Witness for claim C3 on concrete three-point curves. -/
theorem claim_C3_endpoint_interpolation_witness :
    2 ≤ ([⟨1, 2⟩, ⟨3, 4⟩, ⟨5, 0⟩] : List Point2).length ∧
    2 ≤ ([⟨1, 2, 1⟩, ⟨3, 4, 2⟩, ⟨5, 0, 3⟩] : List WPoint).length ∧
    (∀ p ∈ ([⟨1, 2, 1⟩, ⟨3, 4, 2⟩, ⟨5, 0, 3⟩] : List WPoint), 0 < p.w) ∧
    CurveGenerator.deCasteljau [⟨1, 2⟩, ⟨3, 4⟩, ⟨5, 0⟩] 0 = ⟨1, 2⟩ ∧
    CurveGenerator.deCasteljau [⟨1, 2⟩, ⟨3, 4⟩, ⟨5, 0⟩] 1 = ⟨5, 0⟩ ∧
    Curvas.deCasteljauRational [⟨1, 2, 1⟩, ⟨3, 4, 2⟩, ⟨5, 0, 3⟩] 0 =
      some ⟨1, 2⟩ ∧
    Curvas.deCasteljauRational [⟨1, 2, 1⟩, ⟨3, 4, 2⟩, ⟨5, 0, 3⟩] 1 =
      some ⟨5, 0⟩ := by
  have h := claim_C3_endpoint_interpolation [⟨1, 2⟩, ⟨3, 4⟩, ⟨5, 0⟩]
    [⟨1, 2, 1⟩, ⟨3, 4, 2⟩, ⟨5, 0, 3⟩] (by decide) (by decide)
    (by
      intro p hp
      simp only [List.mem_cons, List.not_mem_nil, or_false] at hp
      rcases hp with h | h | h <;> subst h <;> norm_num)
  refine ⟨by decide, by decide, ?_, ?_, ?_, ?_, ?_⟩
  · intro p hp
    simp only [List.mem_cons, List.not_mem_nil, or_false] at hp
    rcases hp with h' | h' | h' <;> subst h' <;> norm_num
  · simpa using h.1
  · simpa using h.2.1
  · simpa using h.2.2.1
  · simpa using h.2.2.2

theorem list_headD_map {α β : Type} (f : α → β) (l : List α) (d : α) :
    (l.map f).headD (f d) = f (l.headD d) := by
  cases l <;> rfl

namespace Curvas

theorem map_projW_wholePass (t : ℚ) : ∀ l : List WPoint,
    (wholePass t l).map projW
      = CurveGenerator.deCasteljauStep t (l.map projW) := by
  intro l
  induction l with
  | nil => rfl
  | cons a l ih =>
      cases l with
      | nil => rfl
      | cons b m =>
          simp only [wholePass, List.map_cons,
            CurveGenerator.deCasteljauStep] at ih ⊢
          rw [ih]
          rfl

theorem wholePass_w_one (t : ℚ) : ∀ l : List WPoint,
    (∀ p ∈ l, p.w = 1) → ∀ q ∈ wholePass t l, q.w = 1 := by
  intro l
  induction l with
  | nil => intro _ q hq; cases hq
  | cons a l ih =>
      intro h q hq
      cases l with
      | nil => cases hq
      | cons b m =>
          simp only [wholePass, List.mem_cons] at hq
          rcases hq with hq | hq
          · subst hq
            have ha : a.w = 1 := h a (by simp)
            have hb : b.w = 1 := h b (by simp)
            simp [lerpW, ha, hb]
          · exact ih (fun p hp => h p (List.mem_cons_of_mem a hp)) q hq

theorem iterate_map_projW (t : ℚ) : ∀ (k : ℕ) (l : List WPoint),
    ((wholePass t)^[k] l).map projW
      = (CurveGenerator.deCasteljauStep t)^[k] (l.map projW) := by
  intro k
  induction k with
  | zero => intro l; rfl
  | succ k ih =>
      intro l
      rw [Function.iterate_succ_apply, Function.iterate_succ_apply, ih,
        map_projW_wholePass]

theorem iterate_w_one (t : ℚ) : ∀ (k : ℕ) (l : List WPoint),
    (∀ p ∈ l, p.w = 1) → ∀ q ∈ (wholePass t)^[k] l, q.w = 1 := by
  intro k
  induction k with
  | zero => intro l h; exact h
  | succ k ih =>
      intro l h
      rw [Function.iterate_succ_apply]
      exact ih (wholePass t l) (wholePass_w_one t l h)

theorem length_iterate_wholePass (t : ℚ) : ∀ (k : ℕ) (l : List WPoint),
    ((wholePass t)^[k] l).length = l.length - k := by
  intro k
  induction k with
  | zero => intro l; rfl
  | succ k ih =>
      intro l
      rw [Function.iterate_succ_apply, ih, length_wholePass]
      omega

end Curvas

namespace CurveGenerator

theorem deCasteljau_eq_iterate (t : ℚ) : ∀ (n : ℕ) (ps : List Point2),
    ps.length = n + 1 →
      deCasteljau ps t = ((deCasteljauStep t)^[n] ps).headD ⟨0, 0⟩ := by
  intro n
  induction n with
  | zero =>
      intro ps hl
      match ps, hl with
      | [a], _ => simp [deCasteljau]
  | succ n ih =>
      intro ps hl
      match ps, hl with
      | p₀ :: p₁ :: rest, hl' =>
          rw [deCasteljau_cons₂]
          have hstep : (deCasteljauStep t (p₀ :: p₁ :: rest)).length = n + 1 := by
            rw [length_deCasteljauStep]
            simp only [List.length_cons] at hl' ⊢
            omega
          rw [ih _ hstep, ← Function.iterate_succ_apply]

end CurveGenerator

/-- Claim C4: the rational De Casteljau evaluator with all weights equal
to 1 agrees with the plain De Casteljau evaluator on the same points, for
every parameter `t` (the control points must exist: on the empty list the
rational evaluator throws, see claim C10). -/
theorem claim_C4_rational_refines_plain (ctrl : List WPoint) (t : ℚ)
    (h1 : 1 ≤ ctrl.length) (hw : ∀ p ∈ ctrl, p.w = 1) :
    Curvas.deCasteljauRational ctrl t
      = some (CurveGenerator.deCasteljau (ctrl.map Curvas.projW) t) := by
  have hne : ctrl ≠ [] := by
    cases ctrl with
    | nil => simp at h1
    | cons a l => simp
  rw [Curvas.deCasteljauRational_eq_headD _ _ hne]
  have hLlen : (ctrl.map Curvas.weighted).length = (ctrl.length - 1) + 1 := by
    rw [List.length_map]; omega
  have hiter := Curvas.ratLoop_headD_eq_iterate t ⟨0, 0, 0⟩ (ctrl.length - 1)
    (ctrl.map Curvas.weighted) [] hLlen
  rw [List.append_nil] at hiter
  rw [hiter]
  have hLw : ∀ p ∈ ctrl.map Curvas.weighted, p.w = 1 := by
    intro p hp
    rcases List.mem_map.mp hp with ⟨c, hc, rfl⟩
    exact hw c hc
  have hIlen : ((Curvas.wholePass t)^[ctrl.length - 1]
      (ctrl.map Curvas.weighted)).length = 1 := by
    rw [Curvas.length_iterate_wholePass, List.length_map]
    omega
  have hIne : (Curvas.wholePass t)^[ctrl.length - 1]
      (ctrl.map Curvas.weighted) ≠ [] := by
    intro hcon
    rw [hcon] at hIlen
    simp at hIlen
  have hqw : (((Curvas.wholePass t)^[ctrl.length - 1]
      (ctrl.map Curvas.weighted)).headD ⟨0, 0, 0⟩).w = 1 :=
    Curvas.iterate_w_one t _ _ hLw _ (list_headD_mem _ hIne _)
  rw [hqw, div_one, div_one]
  have hproj : (⟨(((Curvas.wholePass t)^[ctrl.length - 1]
        (ctrl.map Curvas.weighted)).headD ⟨0, 0, 0⟩).x,
      (((Curvas.wholePass t)^[ctrl.length - 1]
        (ctrl.map Curvas.weighted)).headD ⟨0, 0, 0⟩).y⟩ : Point2)
      = Curvas.projW (((Curvas.wholePass t)^[ctrl.length - 1]
        (ctrl.map Curvas.weighted)).headD ⟨0, 0, 0⟩) := rfl
  rw [hproj, show (⟨0, 0, 0⟩ : WPoint) = ⟨0, 0, 0⟩ from rfl,
    ← list_headD_map Curvas.projW _ ⟨0, 0, 0⟩,
    Curvas.iterate_map_projW]
  have hmm : (ctrl.map Curvas.weighted).map Curvas.projW
      = ctrl.map Curvas.projW := by
    rw [List.map_map]
    refine List.map_eq_map_iff.mpr ?_
    intro c hc
    have : c.w = 1 := hw c hc
    simp [Curvas.weighted, Curvas.projW, this]
  rw [hmm]
  have hplen : (ctrl.map Curvas.projW).length = (ctrl.length - 1) + 1 := by
    rw [List.length_map]; omega
  rw [CurveGenerator.deCasteljau_eq_iterate t (ctrl.length - 1) _ hplen]
  rfl

/-- Witness for claim C4 on a concrete three-point weight-1 curve at
`t = 1/3`. -/
theorem claim_C4_rational_refines_plain_witness :
    1 ≤ ([⟨1, 2, 1⟩, ⟨3, 4, 1⟩, ⟨5, 0, 1⟩] : List WPoint).length ∧
    (∀ p ∈ ([⟨1, 2, 1⟩, ⟨3, 4, 1⟩, ⟨5, 0, 1⟩] : List WPoint), p.w = 1) ∧
    Curvas.deCasteljauRational [⟨1, 2, 1⟩, ⟨3, 4, 1⟩, ⟨5, 0, 1⟩] (1 / 3)
      = some (CurveGenerator.deCasteljau [⟨1, 2⟩, ⟨3, 4⟩, ⟨5, 0⟩] (1 / 3)) := by
  have h := claim_C4_rational_refines_plain
    [⟨1, 2, 1⟩, ⟨3, 4, 1⟩, ⟨5, 0, 1⟩] (1 / 3) (by decide)
    (by
      intro p hp
      simp only [List.mem_cons, List.not_mem_nil, or_false] at hp
      rcases hp with h | h | h <;> subst h <;> rfl)
  refine ⟨by decide, ?_, ?_⟩
  · intro p hp
    simp only [List.mem_cons, List.not_mem_nil, or_false] at hp
    rcases hp with h' | h' | h' <;> subst h' <;> rfl
  · simpa [Curvas.projW] using h

theorem list_getD_map_lt {α β : Type} (f : α → β) (l : List α) (i : ℕ)
    (d : β) (d' : α) (h : i < l.length) :
    (l.map f).getD i d = f (l.getD i d') := by
  rw [List.getD_eq_getElem _ _ (by simpa using h), List.getD_eq_getElem _ _ h]
  simp

theorem list_getD_mem {α : Type} (l : List α) (i : ℕ) (d : α)
    (h : i < l.length) : l.getD i d ∈ l := by
  rw [List.getD_eq_getElem _ _ h]
  exact List.getElem_mem h

namespace RevolutionSurface

theorem getD_set_ne (l : List Point3) (i j : ℕ) (v d : Point3) (h : i ≠ j) :
    (l.set j v).getD i d = l.getD i d := by
  unfold List.getD
  rw [List.get?_eq_getElem?, List.get?_eq_getElem?, List.getElem?_set_ne h.symm]

theorem getD_addAt_ne (ns : List Point3) (i j : ℕ) (v : Point3) (h : i ≠ j) :
    (addAt ns j v).getD i ⟨0, 0, 0⟩ = ns.getD i ⟨0, 0, 0⟩ := by
  unfold addAt
  exact getD_set_ne ns i j _ _ h

theorem accum_unreferenced (vertices : List Point3) (i : ℕ) :
    ∀ (fs : List Face) (ns : List Point3),
      (∀ f ∈ fs, i ≠ f.a ∧ i ≠ f.b ∧ i ≠ f.c) →
      (fs.foldl (accumStep vertices) ns).getD i ⟨0, 0, 0⟩
        = ns.getD i ⟨0, 0, 0⟩ := by
  intro fs
  induction fs with
  | nil => intro ns _; rfl
  | cons f fs ih =>
      intro ns h
      have hf := h f (by simp)
      rw [List.foldl_cons, ih _ (fun g hg => h g (List.mem_cons_of_mem f hg))]
      unfold accumStep
      rw [getD_addAt_ne _ _ _ _ hf.2.2, getD_addAt_ne _ _ _ _ hf.2.1,
        getD_addAt_ne _ _ _ _ hf.1]

theorem getD_replicate_zero (n i : ℕ) :
    (List.replicate n (⟨0, 0, 0⟩ : Point3)).getD i ⟨0, 0, 0⟩ = ⟨0, 0, 0⟩ := by
  rcases lt_or_ge i n with h | h
  · rw [List.getD_eq_getElem _ _ (by simpa using h)]
    simp
  · rw [List.getD_eq_default _ _ (by simpa using h)]

theorem normSq_pos_of_ne (v : Point3) (h : v ≠ ⟨0, 0, 0⟩) : 0 < normSq v := by
  have hx := mul_self_nonneg v.x
  have hy := mul_self_nonneg v.y
  have hz := mul_self_nonneg v.z
  have hnn : 0 ≤ normSq v := by unfold normSq; linarith
  rcases lt_or_eq_of_le hnn with hlt | heq
  · exact hlt
  · exfalso
    unfold normSq at heq
    have e1 : v.x = 0 := by nlinarith
    have e2 : v.y = 0 := by nlinarith
    have e3 : v.z = 0 := by nlinarith
    apply h
    calc v = ⟨v.x, v.y, v.z⟩ := rfl
      _ = ⟨0, 0, 0⟩ := by rw [e1, e2, e3]

theorem normalizeV_cases (sqrtF : ℚ → ℚ) (a : Point3)
    (h1 : sqrtF (normSq a) * sqrtF (normSq a) = normSq a)
    (h2 : 0 ≤ sqrtF (normSq a)) :
    (a ≠ ⟨0, 0, 0⟩ → normSq (normalizeV sqrtF a) = 1) ∧
    (a = ⟨0, 0, 0⟩ → normalizeV sqrtF a = ⟨0, 0, 0⟩) := by
  constructor
  · intro hne
    have hpos : 0 < normSq a := normSq_pos_of_ne a hne
    have hs : 0 < sqrtF (normSq a) := by
      rcases lt_or_eq_of_le h2 with h | h
      · exact h
      · exfalso
        rw [← h] at h1
        rw [← h1] at hpos
        simp at hpos
    unfold normalizeV
    rw [if_pos hs]
    show (a.x / sqrtF (normSq a)) * (a.x / sqrtF (normSq a)) +
        (a.y / sqrtF (normSq a)) * (a.y / sqrtF (normSq a)) +
        (a.z / sqrtF (normSq a)) * (a.z / sqrtF (normSq a)) = 1
    have hrw : (a.x / sqrtF (normSq a)) * (a.x / sqrtF (normSq a)) +
        (a.y / sqrtF (normSq a)) * (a.y / sqrtF (normSq a)) +
        (a.z / sqrtF (normSq a)) * (a.z / sqrtF (normSq a))
        = (a.x * a.x + a.y * a.y + a.z * a.z) /
          (sqrtF (normSq a) * sqrtF (normSq a)) := by
      ring
    rw [hrw, h1]
    exact div_self (ne_of_gt hpos)
  · intro h0
    have hz : normSq a = 0 := by rw [h0]; simp [normSq]
    have hs0 : sqrtF (normSq a) = 0 := by
      rw [hz] at h1
      rw [hz]
      exact mul_self_eq_zero.mp h1
    unfold normalizeV
    rw [if_neg (by rw [hs0]; exact lt_irrefl 0), h0]

end RevolutionSurface

/-- Claim C6, amended: after `calculateNormals`, every vertex whose
accumulated face-normal sum is nonzero gets a normal of squared magnitude
exactly 1, and every vertex whose accumulator is the zero vector — in
particular every vertex referenced by no face — keeps the zero vector
(no NaN is produced: the zero-length guard leaves the vector untouched).
The hypothesis states that `sqrtF` behaves as an exact nonnegative square
root at the finitely many accumulator lengths where the code calls it. -/
theorem claim_C6_normal_magnitudes (sqrtF : ℚ → ℚ) (vertices : List Point3)
    (faces : List Face)
    (hsq : ∀ v ∈ RevolutionSurface.accumNormals vertices faces,
      sqrtF (RevolutionSurface.normSq v) * sqrtF (RevolutionSurface.normSq v)
          = RevolutionSurface.normSq v ∧
        0 ≤ sqrtF (RevolutionSurface.normSq v)) :
    ∀ i < vertices.length,
      ((RevolutionSurface.accumNormals vertices faces).getD i ⟨0, 0, 0⟩
          ≠ ⟨0, 0, 0⟩ →
        RevolutionSurface.normSq
          ((RevolutionSurface.calculateNormals sqrtF vertices faces).getD i
            ⟨0, 0, 0⟩) = 1) ∧
      ((RevolutionSurface.accumNormals vertices faces).getD i ⟨0, 0, 0⟩
          = ⟨0, 0, 0⟩ →
        (RevolutionSurface.calculateNormals sqrtF vertices faces).getD i
          ⟨0, 0, 0⟩ = ⟨0, 0, 0⟩) ∧
      ((∀ f ∈ faces, i ≠ f.a ∧ i ≠ f.b ∧ i ≠ f.c) →
        (RevolutionSurface.calculateNormals sqrtF vertices faces).getD i
          ⟨0, 0, 0⟩ = ⟨0, 0, 0⟩) := by
  intro i hi
  have hilen : i < (RevolutionSurface.accumNormals vertices faces).length := by
    rw [RevolutionSurface.length_accumNormals]
    exact hi
  have hgd : (RevolutionSurface.calculateNormals sqrtF vertices faces).getD i
      ⟨0, 0, 0⟩ = RevolutionSurface.normalizeV sqrtF
        ((RevolutionSurface.accumNormals vertices faces).getD i ⟨0, 0, 0⟩) := by
    unfold RevolutionSurface.calculateNormals
    exact list_getD_map_lt (RevolutionSurface.normalizeV sqrtF)
      (RevolutionSurface.accumNormals vertices faces) i ⟨0, 0, 0⟩ ⟨0, 0, 0⟩
      hilen
  have hmem : (RevolutionSurface.accumNormals vertices faces).getD i ⟨0, 0, 0⟩
      ∈ RevolutionSurface.accumNormals vertices faces :=
    list_getD_mem _ i ⟨0, 0, 0⟩ hilen
  have hp := RevolutionSurface.normalizeV_cases sqrtF _ (hsq _ hmem).1
    (hsq _ hmem).2
  refine ⟨fun h => by rw [hgd]; exact hp.1 h,
    fun h => by rw [hgd]; exact hp.2 h, fun href => ?_⟩
  have hacc : (RevolutionSurface.accumNormals vertices faces).getD i ⟨0, 0, 0⟩
      = ⟨0, 0, 0⟩ := by
    unfold RevolutionSurface.accumNormals
    rw [RevolutionSurface.accum_unreferenced vertices i faces _ href,
      RevolutionSurface.getD_replicate_zero]
  rw [hgd]
  exact hp.2 hacc

example : RevolutionSurface.accumNormals [⟨0,0,0⟩,⟨1,0,0⟩,⟨0,1,0⟩] [⟨0,1,2⟩]
    = [⟨0,0,1⟩,⟨0,0,1⟩,⟨0,0,1⟩] := by
  norm_num [RevolutionSurface.accumNormals, RevolutionSurface.accumStep,
    RevolutionSurface.addAt, RevolutionSurface.addV,
    RevolutionSurface.faceNormal, List.foldl, List.set, List.getD]

set_option maxHeartbeats 2000000 in
/-- Claim C6, counterexample to the claim as stated: revolving the
profile `[(0,0), (0,1)]` — which lies on the revolution axis — produces a
mesh in which vertex 0 is referenced by a face, yet after
`calculateNormals` its normal is the zero vector (the degenerate faces
have zero cross products, so the accumulator is zero and the guard leaves
it unnormalized); its squared magnitude 0 is not within 1e-6 of 1. -/
theorem claim_C6_counterexample :
    (∃ f ∈ (RevolutionSurface.generate (355 / 113) (fun _ => 1) (fun _ => 0)
        (fun _ => 0) ⟨[], [], []⟩ [⟨0, 0⟩, ⟨0, 1⟩] Axis.y 360 1).faces,
      f.a = 0 ∨ f.b = 0 ∨ f.c = 0) ∧
    (RevolutionSurface.generate (355 / 113) (fun _ => 1) (fun _ => 0)
        (fun _ => 0) ⟨[], [], []⟩ [⟨0, 0⟩, ⟨0, 1⟩] Axis.y 360 1).normals.getD 0
      ⟨0, 0, 0⟩ = ⟨0, 0, 0⟩ ∧
    ¬ ((1 - 1 / 1000000) * (1 - 1 / 1000000) ≤
        RevolutionSurface.normSq
          ((RevolutionSurface.generate (355 / 113) (fun _ => 1) (fun _ => 0)
              (fun _ => 0) ⟨[], [], []⟩ [⟨0, 0⟩, ⟨0, 1⟩] Axis.y 360
              1).normals.getD 0 ⟨0, 0, 0⟩)) := by
  have hmesh : (RevolutionSurface.generate (355 / 113) (fun _ => 1)
      (fun _ => 0) (fun _ => 0) ⟨[], [], []⟩ [⟨0, 0⟩, ⟨0, 1⟩] Axis.y 360
      1).faces = [⟨0, 2, 1⟩, ⟨2, 3, 1⟩] := by
    norm_num [RevolutionSurface.generate, RevolutionSurface.generateFaces,
      List.range_succ]
  have hnrm : (RevolutionSurface.generate (355 / 113) (fun _ => 1)
      (fun _ => 0) (fun _ => 0) ⟨[], [], []⟩ [⟨0, 0⟩, ⟨0, 1⟩] Axis.y 360
      1).normals.getD 0 ⟨0, 0, 0⟩ = ⟨0, 0, 0⟩ := by
    norm_num [RevolutionSurface.generate, RevolutionSurface.generateVertices,
      RevolutionSurface.generateFaces, RevolutionSurface.rotatePoint,
      RevolutionSurface.calculateNormals, RevolutionSurface.accumNormals,
      RevolutionSurface.accumStep, RevolutionSurface.addAt,
      RevolutionSurface.addV, RevolutionSurface.faceNormal,
      RevolutionSurface.normalizeV, RevolutionSurface.normSq,
      List.range_succ, List.foldl, List.set, List.getD]
  refine ⟨⟨⟨0, 2, 1⟩, ?_, ?_⟩, hnrm, ?_⟩
  · rw [hmesh]; simp
  · simp
  · rw [hnrm]
    norm_num [RevolutionSurface.normSq]

/-- Witness for the amended claim C6 on a concrete one-face mesh whose
accumulated normals have rational unit length. -/
theorem claim_C6_normal_magnitudes_witness :
    (∀ v ∈ RevolutionSurface.accumNormals [⟨0, 0, 0⟩, ⟨1, 0, 0⟩, ⟨0, 1, 0⟩]
        [⟨0, 1, 2⟩],
      (fun _ : ℚ => (1 : ℚ)) (RevolutionSurface.normSq v) *
          (fun _ : ℚ => (1 : ℚ)) (RevolutionSurface.normSq v)
          = RevolutionSurface.normSq v ∧
        0 ≤ (fun _ : ℚ => (1 : ℚ)) (RevolutionSurface.normSq v)) ∧
    (∀ i < ([⟨0, 0, 0⟩, ⟨1, 0, 0⟩, ⟨0, 1, 0⟩] : List Point3).length,
      ((RevolutionSurface.accumNormals [⟨0, 0, 0⟩, ⟨1, 0, 0⟩, ⟨0, 1, 0⟩]
          [⟨0, 1, 2⟩]).getD i ⟨0, 0, 0⟩ ≠ ⟨0, 0, 0⟩ →
        RevolutionSurface.normSq
          ((RevolutionSurface.calculateNormals (fun _ : ℚ => (1 : ℚ))
            [⟨0, 0, 0⟩, ⟨1, 0, 0⟩, ⟨0, 1, 0⟩] [⟨0, 1, 2⟩]).getD i
              ⟨0, 0, 0⟩) = 1) ∧
      ((RevolutionSurface.accumNormals [⟨0, 0, 0⟩, ⟨1, 0, 0⟩, ⟨0, 1, 0⟩]
          [⟨0, 1, 2⟩]).getD i ⟨0, 0, 0⟩ = ⟨0, 0, 0⟩ →
        (RevolutionSurface.calculateNormals (fun _ : ℚ => (1 : ℚ))
          [⟨0, 0, 0⟩, ⟨1, 0, 0⟩, ⟨0, 1, 0⟩] [⟨0, 1, 2⟩]).getD i ⟨0, 0, 0⟩
          = ⟨0, 0, 0⟩) ∧
      ((∀ f ∈ ([⟨0, 1, 2⟩] : List Face), i ≠ f.a ∧ i ≠ f.b ∧ i ≠ f.c) →
        (RevolutionSurface.calculateNormals (fun _ : ℚ => (1 : ℚ))
          [⟨0, 0, 0⟩, ⟨1, 0, 0⟩, ⟨0, 1, 0⟩] [⟨0, 1, 2⟩]).getD i ⟨0, 0, 0⟩
          = ⟨0, 0, 0⟩)) := by
  have hacc : RevolutionSurface.accumNormals
      [⟨0, 0, 0⟩, ⟨1, 0, 0⟩, ⟨0, 1, 0⟩] [⟨0, 1, 2⟩]
      = [⟨0, 0, 1⟩, ⟨0, 0, 1⟩, ⟨0, 0, 1⟩] := by
    norm_num [RevolutionSurface.accumNormals, RevolutionSurface.accumStep,
      RevolutionSurface.addAt, RevolutionSurface.addV,
      RevolutionSurface.faceNormal, List.foldl, List.set, List.getD]
  have hsq : ∀ v ∈ RevolutionSurface.accumNormals
      [⟨0, 0, 0⟩, ⟨1, 0, 0⟩, ⟨0, 1, 0⟩] [⟨0, 1, 2⟩],
      (fun _ : ℚ => (1 : ℚ)) (RevolutionSurface.normSq v) *
          (fun _ : ℚ => (1 : ℚ)) (RevolutionSurface.normSq v)
          = RevolutionSurface.normSq v ∧
        0 ≤ (fun _ : ℚ => (1 : ℚ)) (RevolutionSurface.normSq v) := by
    rw [hacc]
    intro v hv
    simp only [List.mem_cons, List.not_mem_nil, or_false] at hv
    rcases hv with h | h | h <;> subst h <;>
      norm_num [RevolutionSurface.normSq]
  exact ⟨hsq, claim_C6_normal_magnitudes (fun _ : ℚ => (1 : ℚ))
    [⟨0, 0, 0⟩, ⟨1, 0, 0⟩, ⟨0, 1, 0⟩] [⟨0, 1, 2⟩] hsq⟩

namespace RevolutionSurface

theorem starts_v_vertexLine (fmt : ℚ → String) (v : Point3) :
    lineStarts "v " (objVertexLine fmt v) = true := by
  simp [lineStarts, objVertexLine, List.isPrefixOf, String.data_append]

theorem starts_vn_vertexLine (fmt : ℚ → String) (v : Point3) :
    lineStarts "vn " (objVertexLine fmt v) = false := by
  simp [lineStarts, objVertexLine, List.isPrefixOf, String.data_append]

theorem starts_f_vertexLine (fmt : ℚ → String) (v : Point3) :
    lineStarts "f " (objVertexLine fmt v) = false := by
  simp [lineStarts, objVertexLine, List.isPrefixOf, String.data_append]

theorem starts_v_normalLine (fmt : ℚ → String) (n : Point3) :
    lineStarts "v " (objNormalLine fmt n) = false := by
  simp [lineStarts, objNormalLine, List.isPrefixOf, String.data_append]

theorem starts_vn_normalLine (fmt : ℚ → String) (n : Point3) :
    lineStarts "vn " (objNormalLine fmt n) = true := by
  simp [lineStarts, objNormalLine, List.isPrefixOf, String.data_append]

theorem starts_f_normalLine (fmt : ℚ → String) (n : Point3) :
    lineStarts "f " (objNormalLine fmt n) = false := by
  simp [lineStarts, objNormalLine, List.isPrefixOf, String.data_append]

theorem starts_v_faceLine (f : Face) :
    lineStarts "v " (objFaceLine f) = false := by
  simp [lineStarts, objFaceLine, List.isPrefixOf, String.data_append]

theorem starts_vn_faceLine (f : Face) :
    lineStarts "vn " (objFaceLine f) = false := by
  simp [lineStarts, objFaceLine, List.isPrefixOf, String.data_append]

theorem starts_f_faceLine (f : Face) :
    lineStarts "f " (objFaceLine f) = true := by
  simp [lineStarts, objFaceLine, List.isPrefixOf, String.data_append]

theorem starts_v_header1 : lineStarts "v " "# Surface of Revolution" = false := by
  simp [lineStarts, List.isPrefixOf]

theorem starts_vn_header1 : lineStarts "vn " "# Surface of Revolution" = false := by
  simp [lineStarts, List.isPrefixOf]

theorem starts_f_header1 : lineStarts "f " "# Surface of Revolution" = false := by
  simp [lineStarts, List.isPrefixOf]

theorem starts_v_header2 (s : String) :
    lineStarts "v " ("# Vertices: " ++ s) = false := by
  simp [lineStarts, List.isPrefixOf, String.data_append]

theorem starts_vn_header2 (s : String) :
    lineStarts "vn " ("# Vertices: " ++ s) = false := by
  simp [lineStarts, List.isPrefixOf, String.data_append]

theorem starts_f_header2 (s : String) :
    lineStarts "f " ("# Vertices: " ++ s) = false := by
  simp [lineStarts, List.isPrefixOf, String.data_append]

theorem starts_v_header3 (s : String) :
    lineStarts "v " ("# Faces: " ++ s) = false := by
  simp [lineStarts, List.isPrefixOf, String.data_append]

theorem starts_vn_header3 (s : String) :
    lineStarts "vn " ("# Faces: " ++ s) = false := by
  simp [lineStarts, List.isPrefixOf, String.data_append]

theorem starts_f_header3 (s : String) :
    lineStarts "f " ("# Faces: " ++ s) = false := by
  simp [lineStarts, List.isPrefixOf, String.data_append]

theorem starts_v_empty : lineStarts "v " "" = false := rfl

theorem starts_vn_empty : lineStarts "vn " "" = false := rfl

theorem starts_f_empty : lineStarts "f " "" = false := rfl

end RevolutionSurface

/-- Claim C9: the OBJ export of any mesh contains exactly
`vertices.length` lines beginning with `v `, exactly `normals.length`
lines beginning with `vn `, and exactly `faces.length` lines beginning
with `f `; the `f` lines are precisely `objFaceLine` of each face, whose
vertex and normal indices are written identically (1-based) on both sides
of `//` for every corner — so re-parsing the text recovers the vertex and
face counts exactly. -/
theorem claim_C9_obj_export_counts (fmt : ℚ → String) (m : Mesh) :
    ((RevolutionSurface.exportOBJ fmt m).countP (lineStarts "v "))
        = m.vertices.length ∧
    ((RevolutionSurface.exportOBJ fmt m).countP (lineStarts "vn "))
        = m.normals.length ∧
    ((RevolutionSurface.exportOBJ fmt m).countP (lineStarts "f "))
        = m.faces.length ∧
    (RevolutionSurface.exportOBJ fmt m).filter (lineStarts "f ")
        = m.faces.map RevolutionSurface.objFaceLine := by
  refine ⟨?_, ?_, ?_, ?_⟩ <;>
    simp [RevolutionSurface.exportOBJ, List.countP_append, List.countP_cons,
      List.countP_map, List.filter_append, List.filter_map,
      Function.comp_def,
      RevolutionSurface.starts_v_vertexLine,
      RevolutionSurface.starts_vn_vertexLine,
      RevolutionSurface.starts_f_vertexLine,
      RevolutionSurface.starts_v_normalLine,
      RevolutionSurface.starts_vn_normalLine,
      RevolutionSurface.starts_f_normalLine,
      RevolutionSurface.starts_v_faceLine,
      RevolutionSurface.starts_vn_faceLine,
      RevolutionSurface.starts_f_faceLine,
      RevolutionSurface.starts_v_header1,
      RevolutionSurface.starts_vn_header1,
      RevolutionSurface.starts_f_header1,
      RevolutionSurface.starts_v_header2,
      RevolutionSurface.starts_vn_header2,
      RevolutionSurface.starts_f_header2,
      RevolutionSurface.starts_v_header3,
      RevolutionSurface.starts_vn_header3,
      RevolutionSurface.starts_f_header3,
      RevolutionSurface.starts_v_empty,
      RevolutionSurface.starts_vn_empty,
      RevolutionSurface.starts_f_empty]
